import Mathlib

/-!
Shallow embedding of the CTMP proxy (rad-cmd/ctmp-proxy).

The repository contains three near-duplicate C++ programs:
  * `part_003` (first file)  : `calculateChecksum`, `readCtmpMessage`, `sourceHandler`
  * `part_003` (second file, `// main.cpp`) : `compute_checksum`, `read_ctmp`, `source_loop`
  * `part_004`               : `validateChecksum`, `readCtmpMessage`, `sourceHandler`
plus the Stage 1 program `main_stage1.cpp` (`get_ctmp_message`, `handle_source`).

Bytes are modelled as `Fin 256`; machine arithmetic on `uint32_t` is modelled
with `Nat` and explicit `% 2 ^ w` where overflow or truncation matters.  A TCP
stream is modelled as the `List Byte` of bytes it will deliver; `recv(n,
MSG_WAITALL)` succeeds exactly when at least `n` bytes remain.
-/

abbrev Byte := Fin 256

/-- `CTMP_MAGIC` / `MAGIC_BYTE` / `MAGIC` = `0xCC` in all four programs. -/
def MAGIC : Byte := 0xCC

/-- `MAX_BODY` / `MAX_PAYLOAD` = 65535 in all four programs. -/
def MAX_BODY : Nat := 65535

/-- Build a byte from a natural number, truncating as C byte stores do. -/
def mkByte (n : Nat) : Byte := ⟨n % 256, Nat.mod_lt _ (by norm_num)⟩

/-- The summation loop shared verbatim by `compute_checksum` (part_003,
main.cpp), `calculateChecksum` (part_003, first file) and `validateChecksum`
(part_004): iterate over 16-bit big-endian words (`(uint16(b[i]) << 8) |
b[i+1]`, here `b1 * 256 + b2`), add each word into a 32-bit accumulator, and
after each addition fold as `if (sum > 0xFFFF) sum = (sum & 0xFFFF) + 1`
(`& 0xFFFF` is `% 2^16`); a trailing odd byte contributes `byte << 8`. -/
def checksumSum : List Byte → Nat → Nat
  | [], sum => sum
  | [b], sum =>
    let s := sum + b.val * 256
    if s > 0xFFFF then s % 2 ^ 16 + 1 else s
  | b1 :: b2 :: rest, sum =>
    let s := sum + (b1.val * 256 + b2.val)
    checksumSum rest (if s > 0xFFFF then s % 2 ^ 16 + 1 else s)

/-- `compute_checksum` (part_003, main.cpp lines 243-261): the final
`uint16_t(~sum) & 0xFFFF` is the 32-bit complement `2^32 - 1 - sum`
truncated to 16 bits. -/
def compute_checksum (b : List Byte) : Nat :=
  (2 ^ 32 - 1 - checksumSum b 0) % 2 ^ 16

/-- `calculateChecksum` (part_003, first file lines 29-46) — textually the
same function as `compute_checksum`. -/
def calculateChecksum (data : List Byte) : Nat :=
  compute_checksum data

/-- `validateChecksum` (part_004 lines 49-69): same summation loop over the
unmodified buffer, accepting iff the folded sum is exactly `0xFFFF`. -/
def validateChecksum (buf : List Byte) : Bool :=
  checksumSum buf 0 == 0xFFFF

/-- Modelled from the spec (§4.1 Checksum Engine), for the refinement claim:
identical word decomposition, but the fold is written
`sum = (sum & 0xFFFF) + (sum >> 16)` instead of the implementation's `+ 1`. -/
def specSum : List Byte → Nat → Nat
  | [], sum => sum
  | [b], sum =>
    let s := sum + b.val * 256
    if s > 0xFFFF then s % 2 ^ 16 + s / 2 ^ 16 else s
  | b1 :: b2 :: rest, sum =>
    let s := sum + (b1.val * 256 + b2.val)
    specSum rest (if s > 0xFFFF then s % 2 ^ 16 + s / 2 ^ 16 else s)

/-- Modelled from the spec (§4.1): the reference checksum is the bitwise NOT,
masked to 16 bits, of the final folded sum — i.e. `2^16 - 1 - (sum % 2^16)`. -/
def specChecksum (b : List Byte) : Nat :=
  2 ^ 16 - 1 - specSum b 0 % 2 ^ 16

theorem checksumSum_eq_specSum :
    ∀ (l : List Byte) (s : Nat), s ≤ 0xFFFF →
      checksumSum l s = specSum l s ∧ checksumSum l s ≤ 0xFFFF
  | [], s, h => by simpa [checksumSum, specSum] using h
  | [b], s, h => by
    have hb : b.val < 256 := b.isLt
    simp only [checksumSum, specSum]
    split <;> omega
  | b1 :: b2 :: rest, s, h => by
    have hb1 : b1.val < 256 := b1.isLt
    have hb2 : b2.val < 256 := b2.isLt
    simp only [checksumSum, specSum]
    have hfold :
        (if s + (b1.val * 256 + b2.val) > 0xFFFF then
            (s + (b1.val * 256 + b2.val)) % 2 ^ 16 + 1
          else s + (b1.val * 256 + b2.val)) =
        (if s + (b1.val * 256 + b2.val) > 0xFFFF then
            (s + (b1.val * 256 + b2.val)) % 2 ^ 16 +
              (s + (b1.val * 256 + b2.val)) / 2 ^ 16
          else s + (b1.val * 256 + b2.val)) := by
      split <;> omega
    have hle :
        (if s + (b1.val * 256 + b2.val) > 0xFFFF then
            (s + (b1.val * 256 + b2.val)) % 2 ^ 16 + 1
          else s + (b1.val * 256 + b2.val)) ≤ 0xFFFF := by
      split <;> omega
    have ih := checksumSum_eq_specSum rest _ hle
    rw [← hfold]
    exact ih

theorem checksumSum_le (l : List Byte) : checksumSum l 0 ≤ 0xFFFF :=
  (checksumSum_eq_specSum l 0 (by norm_num)).2

theorem compute_checksum_lt (b : List Byte) : compute_checksum b < 2 ^ 16 :=
  Nat.mod_lt _ (by norm_num)

/-- The sensitive-frame verification of part_003 (`readCtmpMessage` lines
76-86 and `read_ctmp` lines 287-299): copy the message, force bytes 4 and 5
(the checksum field) to `0xCC`, recompute, and compare with the received
big-endian field value — spec §9's variant (a). -/
def checksumOkA (out : List Byte) : Bool :=
  compute_checksum ((out.set 4 MAGIC).set 5 MAGIC) ==
    (out.getD 4 0).val * 256 + (out.getD 5 0).val

/-- Sender-side construction (spec §4.1 and README "Checksum rule"): compute
the checksum over the buffer with the checksum field forced to `0xCC 0xCC`
and store the 16-bit result big-endian into bytes 4 and 5. -/
def writeChecksum (b : List Byte) : List Byte :=
  let c := compute_checksum ((b.set 4 MAGIC).set 5 MAGIC)
  (b.set 4 (mkByte (c / 256))).set 5 (mkByte (c % 256))

/-- `read_ctmp` (part_003, main.cpp lines 264-301); behaviourally identical
to `readCtmpMessage` (part_003, first file lines 50-89).  Returns the
validated message (header ++ body) and the unread remainder of the stream,
or `none` where the C function returns `false`.  Checks occur in source
order: full header read, magic, length bound, padding, full body read,
then — only when `options & 0x40` is set — the checksum. -/
def read_ctmp (input : List Byte) : Option (List Byte × List Byte) :=
  match input with
  | b0 :: b1 :: b2 :: b3 :: b4 :: b5 :: b6 :: b7 :: rest =>
    if b0 ≠ MAGIC then none
    else
      let len := b2.val * 256 + b3.val
      let net_ck := b4.val * 256 + b5.val
      if len > MAX_BODY then none
      else if b6 ≠ 0 ∨ b7 ≠ 0 then none
      else if rest.length < len then none
      else
        let out := [b0, b1, b2, b3, b4, b5, b6, b7] ++ rest.take len
        if b1.val &&& 0x40 ≠ 0 then
          if compute_checksum ((out.set 4 MAGIC).set 5 MAGIC) ≠ net_ck then none
          else some (out, rest.drop len)
        else some (out, rest.drop len)
  | _ => none

/-- The sizes of the `recv` calls `read_ctmp` issues on a given stream: the
8-byte header request always, and the `len`-byte body request only after the
magic, length-bound and padding checks have all passed. -/
def read_ctmp_reads (input : List Byte) : List Nat :=
  match input with
  | b0 :: _b1 :: b2 :: b3 :: _b4 :: _b5 :: b6 :: b7 :: _rest =>
    if b0 ≠ MAGIC then [8]
    else
      let len := b2.val * 256 + b3.val
      if len > MAX_BODY then [8]
      else if b6 ≠ 0 ∨ b7 ≠ 0 then [8]
      else [8, len]
  | _ => [8]

/-- `get_ctmp_message` (main_stage1.cpp lines 25-47): Stage 1 additionally
requires the options byte to be exactly `0x00` and — via
`memcmp(header + 4, "\x00\x00\x00\x00", 4)` — all of bytes 4-7 to be zero. -/
def get_ctmp_message (input : List Byte) : Option (List Byte × List Byte) :=
  match input with
  | b0 :: b1 :: b2 :: b3 :: b4 :: b5 :: b6 :: b7 :: rest =>
    if b0 ≠ MAGIC ∨ b1 ≠ 0 then none
    else if b4 ≠ 0 ∨ b5 ≠ 0 ∨ b6 ≠ 0 ∨ b7 ≠ 0 then none
    else
      let len := b2.val * 256 + b3.val
      if len > MAX_BODY then none
      else if rest.length < len then none
      else some ([b0, b1, b2, b3, b4, b5, b6, b7] ++ rest.take len, rest.drop len)
  | _ => none

/-- One consumer ("sink"/"destination") connection: its registry identity
(the file descriptor) and the number of bytes `send` transfers to it for a
given message.  Quantifying over `sent` covers every pattern of write
success and failure. -/
structure Consumer where
  id : Nat
  sent : List Byte → Nat

/-- The success test in every broadcast loop:
`send(fd, msg.data(), msg.size(), MSG_NOSIGNAL) == msg.size()`. -/
def sendOk (c : Consumer) (msg : List Byte) : Bool :=
  c.sent msg == msg.length

/-- The broadcast pass of `source_loop` (part_003, main.cpp lines 311-325;
same loop in `sourceHandler` and in `handle_source` of main_stage1.cpp):
walk the registry left to right, attempt one full write per consumer, keep
the consumer on success, close and erase it on failure.  Returns the
registry after the pass, the ids attempted (in order), and the ids closed. -/
def broadcast (msg : List Byte) : List Consumer → List Consumer × List Nat × List Nat
  | [] => ([], [], [])
  | c :: rest =>
    let r := broadcast msg rest
    if sendOk c msg then (c :: r.1, c.id :: r.2.1, r.2.2)
    else (r.1, c.id :: r.2.1, c.id :: r.2.2)

/-- `source_loop` (part_003, main.cpp lines 303-328; same structure as
`sourceHandler` in the other two Stage 2 programs): repeatedly read+validate
one message and broadcast it; when `read_ctmp` returns `false` the loop
breaks and the producer socket is closed.  Returns the messages broadcast
(in order) and the final registry. -/
def source_loop (input : List Byte) (cs : List Consumer) :
    List (List Byte) × List Consumer :=
  match h : read_ctmp input with
  | none => ([], cs)
  | some (msg, rest) =>
    let r := source_loop rest (broadcast msg cs).1
    (msg :: r.1, r.2)
termination_by input.length
decreasing_by
  rcases input with - | ⟨b0, - | ⟨b1, - | ⟨b2, - | ⟨b3, - | ⟨b4, - | ⟨b5,
    - | ⟨b6, - | ⟨b7, r⟩⟩⟩⟩⟩⟩⟩⟩ <;> simp only [read_ctmp] at h
  iterate 8 exact Option.noConfusion h
  iterate 4 (split at h; · exact Option.noConfusion h)
  split at h
  · split at h
    · exact Option.noConfusion h
    · simp only [Option.some.injEq, Prod.mk.injEq] at h
      obtain ⟨-, rfl⟩ := h
      simp only [List.length_drop, List.length_cons]
      omega
  · simp only [Option.some.injEq, Prod.mk.injEq] at h
    obtain ⟨-, rfl⟩ := h
    simp only [List.length_drop, List.length_cons]
    omega

/-- `handle_source` (main_stage1.cpp lines 49-79): the Stage 1 relay loop —
read+validate via `get_ctmp_message`, broadcast on success, and on `false`
break out and close the source socket. -/
def handle_source (input : List Byte) (cs : List Consumer) :
    List (List Byte) × List Consumer :=
  match h : get_ctmp_message input with
  | none => ([], cs)
  | some (msg, rest) =>
    let r := handle_source rest (broadcast msg cs).1
    (msg :: r.1, r.2)
termination_by input.length
decreasing_by
  rcases input with - | ⟨b0, - | ⟨b1, - | ⟨b2, - | ⟨b3, - | ⟨b4, - | ⟨b5,
    - | ⟨b6, - | ⟨b7, r⟩⟩⟩⟩⟩⟩⟩⟩ <;> simp only [get_ctmp_message] at h
  iterate 8 exact Option.noConfusion h
  iterate 4 (split at h; · exact Option.noConfusion h)
  simp only [Option.some.injEq, Prod.mk.injEq] at h
  obtain ⟨-, rfl⟩ := h
  simp only [List.length_drop, List.length_cons]
  omega

/-- Registry events, linearized by the single registry mutex (`sinks_mu` /
`clients_mutex` / `dest_lock`): a consumer thread registering
(`sinks.push_back`), a consumer thread deregistering on disconnect
(`std::remove` + `erase`), or the relay thread broadcasting one validated
frame. -/
inductive Event where
  | connect (c : Consumer)
  | disconnect (id : Nat)
  | frame (msg : List Byte)

/-- The registry plus, per consumer id, the bytes its TCP stream has
received so far.  A failed `send` closes the handle, so bytes it may have
partially transferred are never observed and are not modelled. -/
structure RelayState where
  registry : List Consumer
  log : Nat → List Byte

/-- One mutex-protected registry operation. -/
def stepEvent (s : RelayState) : Event → RelayState
  | .connect c => { s with registry := s.registry ++ [c] }
  | .disconnect i => { s with registry := s.registry.filter (fun c => c.id ≠ i) }
  | .frame msg =>
    { registry := (broadcast msg s.registry).1,
      log := fun i =>
        if s.registry.any (fun c => c.id == i && sendOk c msg) then
          s.log i ++ msg
        else s.log i }

def runEvents (s : RelayState) : List Event → RelayState :=
  List.foldl stepEvent s

/-- The producer frames occurring in a trace, in order. -/
def framesOf (trace : List Event) : List (List Byte) :=
  trace.filterMap fun e =>
    match e with
    | .frame m => some m
    | _ => none

/-- Structural well-formedness of a byte buffer as a CTMP frame: magic first
byte, total size 8 plus the length its own bytes 2-3 declare, zero padding
bytes at offsets 6-7. -/
def validFrame (m : List Byte) : Prop :=
  m.getD 0 0 = MAGIC ∧
    m.length = 8 + ((m.getD 2 0).val * 256 + (m.getD 3 0).val) ∧
    m.getD 6 0 = 0 ∧ m.getD 7 0 = 0

instance (m : List Byte) : Decidable (validFrame m) := by
  unfold validFrame; infer_instance

/-- A consumer whose writes always transfer the full byte count. -/
def okConsumer : Consumer := ⟨0, fun m => m.length⟩

/-- A sensitive (`options = 0x40`) frame, structurally valid, empty body,
checksum field `0x0000` — which does not match the recomputed checksum. -/
def exBadCkFrame : List Byte := [0xCC, 0x40, 0, 0, 0, 0, 0, 0]

/-- A non-sensitive, structurally valid frame with empty body. -/
def exOkFrame : List Byte := [0xCC, 0, 0, 0, 0, 0, 0, 0]

/-- A sensitive frame carrying the checksum the sender-side construction
(field forced to `0xCC 0xCC`) produces for it. -/
def exBufA : List Byte := [0xCC, 0x40, 0, 0, 0x66, 0xF2, 0, 0]

/-- A sensitive frame whose whole-buffer one's-complement sum folds to
exactly `0xFFFF`. -/
def exBufB : List Byte := [0xCC, 0x40, 0, 0, 0x33, 0xBF, 0, 0]

/-- C4: the implemented checksum function (fold by adding 1 when the 32-bit
sum exceeds 0xFFFF) agrees with the spec's reference algorithm (fold via
`sum = (sum & 0xFFFF) + (sum >> 16)`, final bitwise NOT masked to 16 bits)
on every byte sequence, and returns `0xFFFF` (the one's complement of zero)
on the empty sequence. -/
theorem c4_compute_checksum_refines_spec :
    (∀ b : List Byte, compute_checksum b = specChecksum b) ∧
      compute_checksum [] = 0xFFFF := by
  constructor
  · intro b
    have h := checksumSum_eq_specSum b 0 (by norm_num)
    unfold compute_checksum specChecksum
    omega
  · rfl

theorem source_loop_eq_none (input : List Byte) (cs : List Consumer)
    (h : read_ctmp input = none) : source_loop input cs = ([], cs) := by
  rw [source_loop]
  split
  · rfl
  · next msg rest heq => rw [h] at heq; exact Option.noConfusion heq

theorem source_loop_eq_some (input : List Byte) (cs : List Consumer)
    (msg rest : List Byte) (h : read_ctmp input = some (msg, rest)) :
    source_loop input cs =
      (msg :: (source_loop rest (broadcast msg cs).1).1,
        (source_loop rest (broadcast msg cs).1).2) := by
  rw [source_loop]
  split
  · next heq => rw [h] at heq; exact Option.noConfusion heq
  · next m r heq =>
    rw [h] at heq
    obtain ⟨rfl, rfl⟩ := Prod.mk.injEq .. ▸ Option.some.inj heq
    rfl

theorem handle_source_eq_none (input : List Byte) (cs : List Consumer)
    (h : get_ctmp_message input = none) : handle_source input cs = ([], cs) := by
  rw [handle_source]
  split
  · rfl
  · next msg rest heq => rw [h] at heq; exact Option.noConfusion heq

/-- C1: the code's behaviour at the failing input.  `exBadCkFrame` passes
every structural check (`validFrame`) and fails only the checksum
comparison; `read_ctmp` then reports the same failure it reports for a
stream error, and `source_loop` relays nothing further — the producer
connection is closed instead of proceeding to the next frame, although that
next frame by itself is perfectly relayable. -/
theorem c1_checksum_mismatch_closes_connection :
    validFrame exBadCkFrame ∧ checksumOkA exBadCkFrame = false ∧
      read_ctmp (exBadCkFrame ++ exOkFrame) = none ∧
      source_loop (exBadCkFrame ++ exOkFrame) [okConsumer] = ([], [okConsumer]) ∧
      source_loop exOkFrame [okConsumer] = ([exOkFrame], [okConsumer]) := by
  refine ⟨by decide, by decide, by decide, source_loop_eq_none _ _ (by decide), ?_⟩
  rw [source_loop_eq_some exOkFrame [okConsumer] exOkFrame [] (by decide),
    source_loop_eq_none [] _ (by decide)]
  simp [broadcast, sendOk, okConsumer]

/-- C2 counterexample: `exBufA` (checksum field as produced by the
sender-side 0xCC-sentinel construction) is accepted by variant (a) — the
part_003 verification — but rejected by variant (b) — part_004's
`validateChecksum` — so the two variants are not equivalent. -/
theorem c2_counterexample :
    checksumOkA exBufA = true ∧ validateChecksum exBufA = false := by decide

/-- C2 amended: the two observed checksum-verification variants disagree in
both directions: `exBufA` is accepted by (a) and rejected by (b), while
`exBufB` is accepted by (b) and rejected by (a). -/
theorem c2_variants_not_equivalent :
    (checksumOkA exBufA = true ∧ validateChecksum exBufA = false) ∧
      (validateChecksum exBufB = true ∧ checksumOkA exBufB = false) := by decide

/-- C3 counterexample: writing the sentinel-construction checksum into the
field does not satisfy part_004's `validateChecksum` — the claim fails for
that implementation of the verification. -/
theorem c3_counterexample :
    validateChecksum (writeChecksum [0xCC, 0x40, 0, 1, 0, 0, 0, 0, 0xAB]) = false := by
  decide

/-- C3 amended: for every buffer long enough to contain the 2-byte checksum
field at offsets 4-5, computing the checksum with the field forced to
`0xCC 0xCC`, storing it, and then running the part_003 (sentinel-recompute)
verification succeeds. -/
theorem c3_write_then_verify (b : List Byte) (hlen : 6 ≤ b.length) :
    checksumOkA (writeChecksum b) = true := by
  unfold checksumOkA writeChecksum
  have hc := compute_checksum_lt ((b.set 4 MAGIC).set 5 MAGIC)
  set c := compute_checksum ((b.set 4 MAGIC).set 5 MAGIC) with hcdef
  have hforce :
      ((((b.set 4 (mkByte (c / 256))).set 5 (mkByte (c % 256))).set 4 MAGIC).set 5 MAGIC)
        = (b.set 4 MAGIC).set 5 MAGIC := by
    rw [List.set_comm _ _ _ (by norm_num : (4:Nat) ≠ 5), List.set_set,
      List.set_comm _ _ _ (by norm_num : (5:Nat) ≠ 4), List.set_set]
  have hget4 :
      ((b.set 4 (mkByte (c / 256))).set 5 (mkByte (c % 256))).getD 4 0
        = mkByte (c / 256) := by
    rw [List.getD_eq_getElem?_getD, List.getElem?_set_ne (by norm_num),
      List.getElem?_set_self (by omega)]
    rfl
  have hget5 :
      ((b.set 4 (mkByte (c / 256))).set 5 (mkByte (c % 256))).getD 5 0
        = mkByte (c % 256) := by
    rw [List.getD_eq_getElem?_getD,
      List.getElem?_set_self (by simp; omega)]
    rfl
  rw [hforce, hget4, hget5]
  simp only [mkByte, beq_iff_eq]
  omega

/-- C3 witness for the amended theorem. -/
theorem c3_witness :
    6 ≤ ([0, 0, 0, 0, 0, 0] : List Byte).length ∧
      checksumOkA (writeChecksum [0, 0, 0, 0, 0, 0]) = true :=
  ⟨by decide, c3_write_then_verify [0, 0, 0, 0, 0, 0] (by decide)⟩

/-- C5: a frame whose options byte has bit `0x40` clear and which satisfies
every structural rule (magic `0xCC`, zero padding, full body of the declared
length) is read and validated successfully by `read_ctmp` for every value of
the two checksum-field bytes — the field is never inspected. -/
theorem c5_nonsensitive_ignores_checksum
    (opts b2 b3 ck1 ck2 : Byte) (body tail : List Byte)
    (hopts : opts.val &&& 0x40 = 0)
    (hbody : body.length = b2.val * 256 + b3.val) :
    read_ctmp (MAGIC :: opts :: b2 :: b3 :: ck1 :: ck2 :: 0 :: 0 :: (body ++ tail)) =
      some ([MAGIC, opts, b2, b3, ck1, ck2, 0, 0] ++ body, tail) := by
  have hb2 : b2.val < 256 := b2.isLt
  have hb3 : b3.val < 256 := b3.isLt
  have h2 : ¬(b2.val * 256 + b3.val > MAX_BODY) := by unfold MAX_BODY; omega
  have h4 : ¬((body ++ tail).length < b2.val * 256 + b3.val) := by
    rw [List.length_append]; omega
  simp only [read_ctmp, ne_eq, not_true_eq_false, if_false, reduceIte, h2, h4,
    hopts, Fin.isValue, not_false_eq_true, or_self, ite_false, ite_true]
  rw [← hbody, List.take_left, List.drop_left]

/-- C5 witness: options `0xBF` (every bit except `0x40`), checksum field
`0xAB 0xCD`, one-byte body. -/
theorem c5_witness :
    (0xBF : Byte).val &&& 0x40 = 0 ∧
      ([0x7F] : List Byte).length = (0 : Byte).val * 256 + (1 : Byte).val ∧
      read_ctmp (MAGIC :: 0xBF :: 0 :: 1 :: 0xAB :: 0xCD :: 0 :: 0 :: ([0x7F] ++ [])) =
        some ([MAGIC, 0xBF, 0, 1, 0xAB, 0xCD, 0, 0] ++ [0x7F], []) :=
  ⟨by decide, by decide,
    c5_nonsensitive_ignores_checksum 0xBF 0 1 0xAB 0xCD [0x7F] [] (by decide) (by decide)⟩

theorem broadcast_attempted (msg : List Byte) (cs : List Consumer) :
    (broadcast msg cs).2.1 = cs.map Consumer.id := by
  induction cs with
  | nil => rfl
  | cons c rest ih =>
    simp only [broadcast, List.map_cons]
    cases h : sendOk c msg <;> simp [h, ih]

theorem broadcast_kept (msg : List Byte) (cs : List Consumer) :
    (broadcast msg cs).1 = cs.filter (fun c => sendOk c msg) := by
  induction cs with
  | nil => rfl
  | cons c rest ih =>
    simp only [broadcast, List.filter_cons]
    cases h : sendOk c msg <;> simp [h, ih]

theorem broadcast_closed (msg : List Byte) (cs : List Consumer) :
    (broadcast msg cs).2.2 = (cs.filter (fun c => !sendOk c msg)).map Consumer.id := by
  induction cs with
  | nil => rfl
  | cons c rest ih =>
    simp only [broadcast, List.filter_cons]
    cases h : sendOk c msg <;> simp [h, ih]

/-- C6: one broadcast pass attempts exactly one full write per registered
consumer, in registry order; afterwards the registry holds exactly the
consumers whose write transferred the complete byte count, in their original
relative order, and the consumers whose write fell short are the ones closed
— the attempt list shows no failure stops the writes after it. -/
theorem c6_broadcast_pass (msg : List Byte) (cs : List Consumer) :
    (broadcast msg cs).2.1 = cs.map Consumer.id ∧
      (broadcast msg cs).1 = cs.filter (fun c => sendOk c msg) ∧
      (broadcast msg cs).2.2 = (cs.filter (fun c => !sendOk c msg)).map Consumer.id :=
  ⟨broadcast_attempted msg cs, broadcast_kept msg cs, broadcast_closed msg cs⟩

/-- C7: the length field is two bytes, so the declared length is at most
65535 and a frame declaring 65536 or more cannot occur on the wire (first
conjunct): the claim holds vacuously (second conjunct), and the guard
`len > MAX_BODY` sits before the body `recv` — the requests `read_ctmp`
issues are the 8-byte header and, only after the guard has passed, a body
request of exactly the declared length (third conjunct). -/
theorem c7_oversized_length_rejected_before_body
    (b0 b1 b2 b3 b4 b5 b6 b7 : Byte) (rest : List Byte) :
    b2.val * 256 + b3.val ≤ 65535 ∧
      (b2.val * 256 + b3.val ≥ 65536 →
        read_ctmp (b0 :: b1 :: b2 :: b3 :: b4 :: b5 :: b6 :: b7 :: rest) = none ∧
          read_ctmp_reads (b0 :: b1 :: b2 :: b3 :: b4 :: b5 :: b6 :: b7 :: rest) = [8]) ∧
      (read_ctmp_reads (b0 :: b1 :: b2 :: b3 :: b4 :: b5 :: b6 :: b7 :: rest) = [8] ∨
        read_ctmp_reads (b0 :: b1 :: b2 :: b3 :: b4 :: b5 :: b6 :: b7 :: rest)
          = [8, b2.val * 256 + b3.val]) := by
  have hb2 : b2.val < 256 := b2.isLt
  have hb3 : b3.val < 256 := b3.isLt
  refine ⟨by omega, fun h => absurd h (by omega), ?_⟩
  simp only [read_ctmp_reads]
  split_ifs <;> simp

/-- C9: Stage 1 (`get_ctmp_message`) accepts a frame only if the options
byte is exactly `0x00` and all four bytes at offsets 4-7 are zero; any frame
with a nonzero options byte or a nonzero checksum field is refused, and
`handle_source` then stops relaying and closes the source connection. -/
theorem c9_stage1_requires_zero_options_and_checksum
    (b0 b1 b2 b3 b4 b5 b6 b7 : Byte) (rest : List Byte) (cs : List Consumer) :
    (∀ msg rest2,
        get_ctmp_message (b0 :: b1 :: b2 :: b3 :: b4 :: b5 :: b6 :: b7 :: rest)
            = some (msg, rest2) →
          b1 = 0 ∧ b4 = 0 ∧ b5 = 0 ∧ b6 = 0 ∧ b7 = 0) ∧
      ((b1 ≠ 0 ∨ b4 ≠ 0 ∨ b5 ≠ 0) →
        get_ctmp_message (b0 :: b1 :: b2 :: b3 :: b4 :: b5 :: b6 :: b7 :: rest) = none ∧
          handle_source (b0 :: b1 :: b2 :: b3 :: b4 :: b5 :: b6 :: b7 :: rest) cs
            = ([], cs)) := by
  constructor
  · intro msg rest2 h
    simp only [get_ctmp_message] at h
    split at h
    · exact Option.noConfusion h
    · split at h
      · exact Option.noConfusion h
      · next hg1 hg2 =>
        push_neg at hg1 hg2
        exact ⟨hg1.2, hg2.1, hg2.2.1, hg2.2.2.1, hg2.2.2.2⟩
  · intro hbad
    have hnone :
        get_ctmp_message (b0 :: b1 :: b2 :: b3 :: b4 :: b5 :: b6 :: b7 :: rest)
          = none := by
      simp only [get_ctmp_message]
      by_cases hg1 : (b0 ≠ MAGIC ∨ b1 ≠ 0)
      · rw [if_pos hg1]
      · rw [if_neg hg1, if_pos ?_]
        push_neg at hg1
        rcases hbad with h | h | h
        · exact absurd hg1.2 h
        · exact Or.inl h
        · exact Or.inr (Or.inl h)
    exact ⟨hnone, handle_source_eq_none _ _ hnone⟩

theorem read_ctmp_some_shape {input msg rest : List Byte}
    (h : read_ctmp input = some (msg, rest)) :
    validFrame msg ∧ rest.length < input.length := by
  rcases input with - | ⟨b0, - | ⟨b1, - | ⟨b2, - | ⟨b3, - | ⟨b4, - | ⟨b5,
    - | ⟨b6, - | ⟨b7, r⟩⟩⟩⟩⟩⟩⟩⟩ <;> simp only [read_ctmp] at h
  iterate 8 exact Option.noConfusion h
  split at h
  · exact Option.noConfusion h
  rename_i hmag
  split at h
  · exact Option.noConfusion h
  split at h
  · exact Option.noConfusion h
  rename_i hpad
  split at h
  · exact Option.noConfusion h
  rename_i hshort
  push_neg at hmag hpad hshort
  have hpayload :
      validFrame ([b0, b1, b2, b3, b4, b5, b6, b7] ++ r.take (b2.val * 256 + b3.val)) ∧
        (r.drop (b2.val * 256 + b3.val)).length <
          (b0 :: b1 :: b2 :: b3 :: b4 :: b5 :: b6 :: b7 :: r).length := by
    refine ⟨⟨?_, ?_, ?_, ?_⟩, ?_⟩
    · simp [hmag, List.getD_cons_zero]
    · simp only [List.cons_append, List.nil_append, List.length_cons,
        List.getD_cons_zero, List.getD_cons_succ, List.length_take]
      omega
    · simp [hpad.1, List.getD_cons_succ]
    · simp [hpad.2, List.getD_cons_succ]
    · simp only [List.length_drop, List.length_cons]
      omega
  split at h
  · split at h
    · exact Option.noConfusion h
    · simp only [Option.some.injEq, Prod.mk.injEq] at h
      obtain ⟨rfl, rfl⟩ := h
      exact hpayload
  · simp only [Option.some.injEq, Prod.mk.injEq] at h
    obtain ⟨rfl, rfl⟩ := h
    exact hpayload

theorem source_loop_frames_valid :
    ∀ (n : Nat) (input : List Byte), input.length ≤ n →
      ∀ (cs : List Consumer) (msg : List Byte),
        msg ∈ (source_loop input cs).1 → validFrame msg := by
  intro n
  induction n with
  | zero =>
    intro input hn cs msg hmem
    obtain rfl : input = [] := List.eq_nil_of_length_eq_zero (by omega)
    rw [source_loop_eq_none [] cs rfl] at hmem
    simp at hmem
  | succ n ih =>
    intro input hn cs msg hmem
    cases h : read_ctmp input with
    | none =>
      rw [source_loop_eq_none _ _ h] at hmem
      simp at hmem
    | some p =>
      obtain ⟨m, rest⟩ := p
      rw [source_loop_eq_some _ _ _ _ h] at hmem
      simp only [List.mem_cons] at hmem
      rcases hmem with rfl | hmem
      · exact (read_ctmp_some_shape h).1
      · exact ih rest (by have := (read_ctmp_some_shape h).2; omega) _ _ hmem

/-- C10: every buffer `source_loop` hands to the broadcast pass is itself a
structurally valid frame — magic first byte, total size 8 plus the length
its own bytes at offsets 2-3 declare, and zero bytes at offsets 6-7 — so a
consumer never receives a partially read or structurally invalid buffer. -/
theorem c10_broadcast_frames_valid (input : List Byte) (cs : List Consumer)
    (msg : List Byte) (hmem : msg ∈ (source_loop input cs).1) : validFrame msg :=
  source_loop_frames_valid input.length input le_rfl cs msg hmem

/-- C10 witness: the concrete frame `exOkFrame` is broadcast by a concrete
run of the loop and is structurally valid. -/
theorem c10_witness :
    exOkFrame ∈ (source_loop exOkFrame [okConsumer]).1 ∧ validFrame exOkFrame := by
  have hmem : exOkFrame ∈ (source_loop exOkFrame [okConsumer]).1 := by
    rw [source_loop_eq_some exOkFrame [okConsumer] exOkFrame [] (by decide)]
    simp
  exact ⟨hmem, c10_broadcast_frames_valid _ _ _ hmem⟩

theorem runEvents_tracked (c : Consumer) (hok : ∀ m, c.sent m = m.length) :
    ∀ (trace : List Event) (s : RelayState),
      c ∈ s.registry → Event.disconnect c.id ∉ trace →
      c ∈ (runEvents s trace).registry ∧
        (runEvents s trace).log c.id = s.log c.id ++ (framesOf trace).flatten := by
  intro trace
  induction trace with
  | nil =>
    intro s hreg _
    simp [runEvents, framesOf, hreg]
  | cons e t ih =>
    intro s hreg hnod
    have hnod_t : Event.disconnect c.id ∉ t := fun h => hnod (List.mem_cons_of_mem _ h)
    have hne : Event.disconnect c.id ≠ e := fun h => hnod (h ▸ List.mem_cons_self _ _)
    have hstep : runEvents s (e :: t) = runEvents (stepEvent s e) t := rfl
    cases e with
    | connect d =>
      have hreg' : c ∈ (stepEvent s (.connect d)).registry :=
        List.mem_append_left _ hreg
      have h := ih (stepEvent s (.connect d)) hreg' hnod_t
      rw [hstep]
      refine ⟨h.1, ?_⟩
      rw [h.2]
      rfl
    | disconnect i =>
      have hi : c.id ≠ i := fun h => hne (by rw [h])
      have hreg' : c ∈ (stepEvent s (.disconnect i)).registry := by
        simp only [stepEvent]
        exact List.mem_filter.2 ⟨hreg, by simp [hi]⟩
      have h := ih (stepEvent s (.disconnect i)) hreg' hnod_t
      rw [hstep]
      refine ⟨h.1, ?_⟩
      rw [h.2]
      rfl
    | frame m =>
      have hsend : sendOk c m = true := by simp [sendOk, hok]
      have hreg' : c ∈ (stepEvent s (.frame m)).registry := by
        simp only [stepEvent]
        rw [broadcast_kept]
        exact List.mem_filter.2 ⟨hreg, hsend⟩
      have h := ih (stepEvent s (.frame m)) hreg' hnod_t
      rw [hstep]
      refine ⟨h.1, ?_⟩
      rw [h.2]
      have hany : s.registry.any (fun d => d.id == c.id && sendOk d m) = true :=
        List.any_eq_true.2 ⟨c, hreg, by simp [hsend]⟩
      simp only [stepEvent, hany, if_true, framesOf, List.filterMap_cons]
      simp [List.append_assoc]

/-- C8: with registry operations linearized by the registry mutex, for any
event trace whose producer frames are exactly F1, F2, F3 in that order, a
consumer registered before F1's broadcast, never disconnected, and whose
writes always transfer fully, receives exactly the bytes of F1, F2, F3
concatenated in that order — no interleaving, loss or duplication — while
arbitrary other consumers connect and disconnect throughout the trace. -/
theorem c8_order_preserving_delivery
    (trace : List Event) (c : Consumer) (s0 : RelayState) (F1 F2 F3 : List Byte)
    (hok : ∀ m, c.sent m = m.length)
    (hreg : c ∈ s0.registry) (hlog : s0.log c.id = [])
    (hnod : Event.disconnect c.id ∉ trace)
    (hframes : framesOf trace = [F1, F2, F3]) :
    c ∈ (runEvents s0 trace).registry ∧
      (runEvents s0 trace).log c.id = F1 ++ F2 ++ F3 := by
  have h := runEvents_tracked c hok trace s0 hreg hnod
  rw [hframes, hlog] at h
  refine ⟨h.1, ?_⟩
  rw [h.2]
  simp [List.append_assoc]

/-- C8 witness: a concrete trace with consumer churn around three frames. -/
theorem c8_witness :
    (∀ m, okConsumer.sent m = m.length) ∧
      okConsumer ∈ (⟨[okConsumer], fun _ => []⟩ : RelayState).registry ∧
      (⟨[okConsumer], fun _ => []⟩ : RelayState).log okConsumer.id = [] ∧
      Event.disconnect okConsumer.id ∉
        [Event.connect ⟨1, fun _ => 0⟩, Event.frame [0x01], Event.disconnect 1,
          Event.frame [], Event.connect ⟨2, fun m => m.length⟩,
          Event.frame [0x02, 0x03]] ∧
      framesOf
        [Event.connect ⟨1, fun _ => 0⟩, Event.frame [0x01], Event.disconnect 1,
          Event.frame [], Event.connect ⟨2, fun m => m.length⟩,
          Event.frame [0x02, 0x03]] = [[0x01], [], [0x02, 0x03]] ∧
      okConsumer ∈
        (runEvents ⟨[okConsumer], fun _ => []⟩
          [Event.connect ⟨1, fun _ => 0⟩, Event.frame [0x01], Event.disconnect 1,
            Event.frame [], Event.connect ⟨2, fun m => m.length⟩,
            Event.frame [0x02, 0x03]]).registry ∧
      (runEvents ⟨[okConsumer], fun _ => []⟩
          [Event.connect ⟨1, fun _ => 0⟩, Event.frame [0x01], Event.disconnect 1,
            Event.frame [], Event.connect ⟨2, fun m => m.length⟩,
            Event.frame [0x02, 0x03]]).log okConsumer.id
        = [0x01] ++ [] ++ [0x02, 0x03] := by
  have hok : ∀ m, okConsumer.sent m = m.length := fun _ => rfl
  have hreg : okConsumer ∈ (⟨[okConsumer], fun _ => []⟩ : RelayState).registry :=
    List.mem_singleton.2 rfl
  have hnod : Event.disconnect okConsumer.id ∉
      [Event.connect ⟨1, fun _ => 0⟩, Event.frame [0x01], Event.disconnect 1,
        Event.frame [], Event.connect ⟨2, fun m => m.length⟩,
        Event.frame [0x02, 0x03]] := by
    intro h
    simp only [okConsumer, List.mem_cons, List.not_mem_nil] at h
    rcases h with h | h | h | h | h | h | h <;> simp_all
  have h := c8_order_preserving_delivery _ okConsumer _ [0x01] [] [0x02, 0x03]
    hok hreg rfl hnod rfl
  exact ⟨hok, hreg, rfl, hnod, rfl, h.1, h.2⟩
